import Mathlib

/-!
Verification of the pure logic fragments of `react-native-examples`:

* the unscheduled-item filter `computeUnscheduled` from
  `src/exampleScreens/SupplemementsScreen.tsx`, and
* the title-to-slug resolver (`norm`, `titleToSlug`) and section index
  (`sections`, `indexBySlug`) from the commerce main page.

Each definition is a shallow embedding of the corresponding TypeScript
source function; the theorems settle the spec's testable properties.
-/

namespace Supplements

/-- An item tracked by the supplements screen.  In the source,
`SupplementType` carries a numeric `id` plus descriptive attributes that
are opaque to the filtering logic; we keep the id and one opaque payload
field. -/
structure SupplementType where
  id : Int
  name : String
deriving DecidableEq, Repr

/-- A reminder (grouping).  The source types reminders at the use site as
`{ selectedSupplements?: number[] }`: the field may be absent, which we
model with `Option`. -/
structure Reminder where
  selectedSupplements : Option (List Int)
deriving DecidableEq, Repr

/-- The id list a reminder contributes: `r.selectedSupplements ?? []`. -/
def reminderIds (r : Reminder) : List Int :=
  r.selectedSupplements.getD []

/-- `Set.add` of the JavaScript `Set`: inserting an element already
present leaves the set unchanged. -/
def setAdd (s : List Int) (x : Int) : List Int :=
  if x ∈ s then s else s ++ [x]

/-- The set `inAnyReminder` built by the double loop in
`computeUnscheduled`: the union of all ids referenced by any reminder. -/
def inAnyReminder (reminders : List Reminder) : List Int :=
  reminders.foldl (fun acc r => (reminderIds r).foldl setAdd acc) []

/-- `computeUnscheduled` from `SupplemementsScreen.tsx`: keep the
supplements whose id is in no reminder's `selectedSupplements`. -/
def computeUnscheduled (supps : List SupplementType)
    (reminders : List Reminder) : List SupplementType :=
  supps.filter (fun s => !(inAnyReminder reminders).contains s.id)

theorem mem_setAdd {x y : Int} {s : List Int} :
    x ∈ setAdd s y ↔ x ∈ s ∨ x = y := by
  unfold setAdd
  split
  · constructor
    · exact Or.inl
    · rintro (h | rfl) <;> assumption
  · simp [or_comm]

theorem mem_foldl_setAdd (l : List Int) (acc : List Int) (x : Int) :
    x ∈ l.foldl setAdd acc ↔ x ∈ acc ∨ x ∈ l := by
  induction l generalizing acc with
  | nil => simp
  | cons a l ih =>
      simp only [List.foldl_cons, ih, mem_setAdd, List.mem_cons]
      tauto

theorem mem_inAnyReminder_aux (G : List Reminder) (acc : List Int)
    (x : Int) :
    x ∈ G.foldl (fun acc r => (reminderIds r).foldl setAdd acc) acc ↔
      x ∈ acc ∨ ∃ r ∈ G, x ∈ reminderIds r := by
  induction G generalizing acc with
  | nil => simp
  | cons g G ih =>
      simp only [List.foldl_cons, ih, mem_foldl_setAdd, List.mem_cons]
      constructor
      · rintro ((h | h) | ⟨r, hr, hx⟩)
        · exact Or.inl h
        · exact Or.inr ⟨g, Or.inl rfl, h⟩
        · exact Or.inr ⟨r, Or.inr hr, hx⟩
      · rintro (h | ⟨r, (rfl | hr), hx⟩)
        · exact Or.inl (Or.inl h)
        · exact Or.inl (Or.inr hx)
        · exact Or.inr ⟨r, hr, hx⟩

theorem mem_inAnyReminder (G : List Reminder) (x : Int) :
    x ∈ inAnyReminder G ↔ ∃ r ∈ G, x ∈ reminderIds r := by
  simpa using mem_inAnyReminder_aux G [] x

theorem contains_eq_decide_mem (l : List Int) (x : Int) :
    l.contains x = decide (x ∈ l) := by
  induction l with
  | nil => rfl
  | cons a l ih =>
      by_cases h : x = a <;> simp [List.contains, List.elem_cons, h, ih]

/-- Replacing an absent `selectedSupplements` field by the empty list,
leaving a present field unchanged. -/
def fillEmpty (r : Reminder) : Reminder :=
  match r.selectedSupplements with
  | none => ⟨some []⟩
  | some _ => r

theorem reminderIds_fillEmpty (r : Reminder) :
    reminderIds (fillEmpty r) = reminderIds r := by
  rcases r with ⟨_ | l⟩ <;> rfl

theorem inAnyReminder_map_fillEmpty (G : List Reminder) :
    inAnyReminder (G.map fillEmpty) = inAnyReminder G := by
  unfold inAnyReminder
  rw [List.foldl_map]
  simp only [reminderIds_fillEmpty]

/-- Adding the id `x` to a grouping's referenced-id set. -/
def addRef (x : Int) (r : Reminder) : Reminder :=
  ⟨some (x :: reminderIds r)⟩

/-- C1: an item of `I` appears in `computeUnscheduled I G` iff its id is
not in the union of all groupings' `selectedSupplements`. -/
theorem computeUnscheduled_mem_iff (I : List SupplementType)
    (G : List Reminder) (s : SupplementType) (hs : s ∈ I) :
    s ∈ computeUnscheduled I G ↔ ¬ ∃ r ∈ G, s.id ∈ reminderIds r := by
  simp [computeUnscheduled, List.mem_filter, hs, contains_eq_decide_mem,
    mem_inAnyReminder]

theorem computeUnscheduled_mem_iff_witness :
    (⟨1, "a"⟩ : SupplementType) ∈ [(⟨1, "a"⟩ : SupplementType), ⟨2, "b"⟩] ∧
      ((⟨1, "a"⟩ : SupplementType) ∈
          computeUnscheduled [⟨1, "a"⟩, ⟨2, "b"⟩] [⟨some [2]⟩] ↔
        ¬ ∃ r ∈ [(⟨some [2]⟩ : Reminder)],
            (⟨1, "a"⟩ : SupplementType).id ∈ reminderIds r) :=
  ⟨by decide, computeUnscheduled_mem_iff _ _ _ (by decide)⟩

/-- C2: `computeUnscheduled I G` is a sublist of `I`: its elements occur
in `I` in their original relative order. -/
theorem computeUnscheduled_sublist (I : List SupplementType)
    (G : List Reminder) : (computeUnscheduled I G).Sublist I :=
  List.filter_sublist I

/-- C8: replacing every absent `selectedSupplements` field by the empty
list leaves `computeUnscheduled` unchanged. -/
theorem computeUnscheduled_fillEmpty (I : List SupplementType)
    (G : List Reminder) :
    computeUnscheduled I (G.map fillEmpty) = computeUnscheduled I G := by
  unfold computeUnscheduled
  rw [inAnyReminder_map_fillEmpty]

/-- C9: adding an id that matches no item of `I` to any grouping's
referenced-id set leaves `computeUnscheduled` unchanged. -/
theorem computeUnscheduled_dangling (I : List SupplementType)
    (G₁ G₂ : List Reminder) (r : Reminder) (x : Int)
    (hx : ∀ s ∈ I, s.id ≠ x) :
    computeUnscheduled I (G₁ ++ addRef x r :: G₂) =
      computeUnscheduled I (G₁ ++ r :: G₂) := by
  unfold computeUnscheduled
  apply List.filter_congr
  intro s hs
  have hne : s.id ≠ x := hx s hs
  have hiff : s.id ∈ inAnyReminder (G₁ ++ addRef x r :: G₂) ↔
      s.id ∈ inAnyReminder (G₁ ++ r :: G₂) := by
    simp only [mem_inAnyReminder, List.mem_append, List.mem_cons]
    constructor
    · rintro ⟨q, hq | hq, hmem⟩
      · exact ⟨q, Or.inl hq, hmem⟩
      · rcases hq with rfl | hq
        · have hmem' : s.id ∈ x :: reminderIds r := hmem
          rcases List.mem_cons.mp hmem' with h | h
          · exact absurd h hne
          · exact ⟨r, Or.inr (Or.inl rfl), h⟩
        · exact ⟨q, Or.inr (Or.inr hq), hmem⟩
    · rintro ⟨q, hq | hq, hmem⟩
      · exact ⟨q, Or.inl hq, hmem⟩
      · rcases hq with rfl | hq
        · exact ⟨addRef x q, Or.inr (Or.inl rfl),
            List.mem_cons_of_mem x hmem⟩
        · exact ⟨q, Or.inr (Or.inr hq), hmem⟩
  rw [contains_eq_decide_mem, contains_eq_decide_mem,
    decide_eq_decide.mpr hiff]

theorem computeUnscheduled_dangling_witness :
    (∀ s ∈ [(⟨1, "a"⟩ : SupplementType)], s.id ≠ 99) ∧
      computeUnscheduled [⟨1, "a"⟩] ([] ++ addRef 99 ⟨none⟩ :: []) =
        computeUnscheduled [⟨1, "a"⟩] ([] ++ (⟨none⟩ : Reminder) :: []) :=
  ⟨by decide, computeUnscheduled_dangling _ [] [] ⟨none⟩ 99 (by decide)⟩

/-- C10: with no groupings, every item is unscheduled:
`computeUnscheduled I [] = I`. -/
theorem computeUnscheduled_empty_groupings (I : List SupplementType) :
    computeUnscheduled I [] = I := by
  simp [computeUnscheduled, inAnyReminder]

end Supplements

namespace Commerce

/-- A canonical showcase section: display title and canonical slug. -/
structure Tag where
  title : String
  slug : String
deriving DecidableEq, Repr

/-- The fixed `TAGS` list from the commerce main page. -/
def TAGS : List Tag :=
  [⟨"Best Sellers", "best-sellers"⟩,
   ⟨"Limited-Time Deals", "limited-time-deals"⟩,
   ⟨"Bundles for Your Goals", "bundles-for-your-goals"⟩,
   ⟨"Top Rated by Customers", "top-rated-by-customers"⟩,
   ⟨"This Month’s Picks", "this-months-picks"⟩,
   ⟨"Just Arrived", "just-arrived"⟩]

/-- The static `SHOWCASE_ALIAS` record, as an association list from
normalized title to canonical slug. -/
def SHOWCASE_ALIAS : List (String × String) :=
  [("limited-time deals", "limited-time-deals"),
   ("top rated products", "top-rated-by-customers"),
   ("top rated by customers", "top-rated-by-customers"),
   ("best sellers", "best-sellers"),
   ("bundles for your goals", "bundles-for-your-goals"),
   ("this months picks", "this-months-picks"),
   ("just arrived", "just-arrived")]

/-- Whether a character matches the regex class `[a-z0-9]`. -/
def isAlnumLower (c : Char) : Bool :=
  (('a' ≤ c) && (c ≤ 'z')) || (('0' ≤ c) && (c ≤ '9'))

/-- Whether a character matches the regex class `['’]`. -/
def isApostrophe (c : Char) : Bool :=
  c == '\'' || c == '’'

/-- `replace(/[^a-z0-9]+/g, " ")`: each maximal run of characters outside
`[a-z0-9]` becomes a single space.  The flag records whether we are
inside such a run. -/
def collapseRuns (inRun : Bool) : List Char → List Char
  | [] => []
  | c :: cs =>
    if isAlnumLower c then c :: collapseRuns false cs
    else if inRun then collapseRuns true cs
    else ' ' :: collapseRuns true cs

/-- `trim()`: strip leading and trailing spaces (the only whitespace that
can remain after `collapseRuns`). -/
def trimSpaces (l : List Char) : List Char :=
  ((l.dropWhile (fun c => c == ' ')).reverse.dropWhile
    (fun c => c == ' ')).reverse

/-- `norm` from the commerce main page: lower-case, strip apostrophes,
collapse runs of non-alphanumerics to one space, trim.  `toLowerCase` is
modelled on ASCII via `Char.toLower`, which agrees with JavaScript on all
characters the resolver's inputs use. -/
def norm (s : String) : String :=
  String.mk (trimSpaces (collapseRuns false
    ((s.data.map Char.toLower).filter (fun c => !(isApostrophe c)))))

/-- Object-key lookup `SHOWCASE_ALIAS[n]`, `undefined` on a miss. -/
def aliasLookup (n : String) : Option String :=
  (SHOWCASE_ALIAS.find? (fun p => p.1 == n)).map (fun p => p.2)

/-- `titleToSlug`: alias-table lookup of the normalized title, then a
fallback scan of `TAGS` by normalized title. -/
def titleToSlug (title : String) : Option String :=
  let n := norm title
  match aliasLookup n with
  | some slug => some slug
  | none => (TAGS.find? (fun t => norm t.title == n)).map (fun t => t.slug)

/-- A row of the rendered section list. -/
inductive Row where
  | banner
  | categories
  | showcase (key : String) (title : String) (slug : String) (timed : Bool)
deriving DecidableEq, Repr

/-- The `sections` array: banner, categories, then one showcase row per
entry of `TAGS`, in order. -/
def sections : List Row :=
  [Row.banner, Row.categories] ++
    TAGS.map (fun t =>
      Row.showcase ("tag-" ++ t.slug) t.title t.slug
        (t.slug == "limited-time-deals"))

/-- The `indexBySlug` map: fold over the enumerated rows, recording the
index of each showcase row under its slug (later entries overwrite, as
with `Map.set`). -/
def indexBySlug (rows : List Row) : String → Option Nat :=
  rows.enum.foldl
    (fun m p =>
      match p.2 with
      | Row.showcase _ _ sl _ => fun q => if q = sl then some p.1 else m q
      | _ => m)
    (fun _ => none)

theorem mem_collapseRuns (l : List Char) :
    ∀ (b : Bool) (c : Char), c ∈ collapseRuns b l →
      isAlnumLower c = true ∨ c = ' ' := by
  induction l with
  | nil =>
      intro b c h
      simp [collapseRuns] at h
  | cons a l ih =>
      intro b c h
      simp only [collapseRuns] at h
      split at h
      · rcases List.mem_cons.mp h with rfl | h
        · exact Or.inl (by assumption)
        · exact ih false c h
      · split at h
        · exact ih true c h
        · rcases List.mem_cons.mp h with rfl | h
          · exact Or.inr rfl
          · exact ih true c h

theorem mem_trimSpaces {c : Char} (l : List Char)
    (h : c ∈ trimSpaces l) : c ∈ l := by
  unfold trimSpaces at h
  rw [List.mem_reverse] at h
  have h1 := (List.dropWhile_sublist _).subset h
  rw [List.mem_reverse] at h1
  exact (List.dropWhile_sublist _).subset h1

theorem mem_norm (s : String) (c : Char) (h : c ∈ (norm s).data) :
    isAlnumLower c = true ∨ c = ' ' := by
  unfold norm at h
  exact mem_collapseRuns _ false c (mem_trimSpaces _ h)

theorem norm_no_hyphen (s : String) : '-' ∉ (norm s).data := by
  intro h
  have := mem_norm s '-' h
  revert this
  decide

/-- C3: round-trip over the fixed section list: resolving any canonical
title through `titleToSlug` and then `indexBySlug` yields the index of
that tag's own showcase row in `sections`. -/
theorem titleToSlug_indexBySlug_roundtrip :
    ∀ i : Fin TAGS.length,
      (titleToSlug (TAGS.get i).title).bind (indexBySlug sections) =
          some (i.val + 2) ∧
        sections.get? (i.val + 2) = some (Row.showcase
          ("tag-" ++ (TAGS.get i).slug) (TAGS.get i).title
          (TAGS.get i).slug
          ((TAGS.get i).slug == "limited-time-deals")) := by
  decide

/-- C4: title resolution is case- and punctuation-insensitive on the
three stated inputs, all resolving to `"limited-time-deals"`. -/
theorem titleToSlug_case_insensitive :
    titleToSlug "Limited-Time Deals" = some "limited-time-deals" ∧
      titleToSlug "limited time deals" = some "limited-time-deals" ∧
      titleToSlug "LIMITED TIME DEALS" = some "limited-time-deals" := by
  decide

/-- C5: looking up `"limited-time-deals"` in the index built from the
canonical section order yields position 3. -/
theorem indexBySlug_limited_time_deals :
    indexBySlug sections "limited-time-deals" = some 3 := by
  decide

/-- C6: `norm` never produces a hyphen, so the alias entry keyed
`"limited-time deals"` can never match: whenever `titleToSlug` resolves a
title to `"limited-time-deals"`, the alias lookup missed and the result
came from the fallback scan of `TAGS`. -/
theorem titleToSlug_hyphen_alias_unreachable :
    (∀ s : String, '-' ∉ (norm s).data) ∧
      ∀ s : String, titleToSlug s = some "limited-time-deals" →
        aliasLookup (norm s) = none ∧
          (TAGS.find? (fun t => norm t.title == norm s)).map
            (fun t => t.slug) = some "limited-time-deals" := by
  refine ⟨norm_no_hyphen, ?_⟩
  intro s hres
  simp only [titleToSlug] at hres
  split at hres
  · exfalso
    rename_i v heq
    injection hres with hv
    subst hv
    rw [aliasLookup] at heq
    rcases Option.map_eq_some'.mp heq with ⟨p, hfind, hp2⟩
    have hmem := List.mem_of_find?_eq_some hfind
    have hkeyall : ∀ q ∈ SHOWCASE_ALIAS, q.2 = "limited-time-deals" →
        q.1 = "limited-time deals" := by decide
    have hkey : p.1 = "limited-time deals" := hkeyall p hmem hp2
    have hbeq := List.find?_some hfind
    have heqn : p.1 = norm s := eq_of_beq hbeq
    have hnorm : norm s = "limited-time deals" := by rw [← heqn, hkey]
    exact norm_no_hyphen s (by rw [hnorm]; decide)
  · rename_i heq
    exact ⟨heq, hres⟩

theorem titleToSlug_hyphen_alias_unreachable_witness :
    titleToSlug "Limited-Time Deals" = some "limited-time-deals" ∧
      aliasLookup (norm "Limited-Time Deals") = none ∧
        (TAGS.find? (fun t =>
            norm t.title == norm "Limited-Time Deals")).map
          (fun t => t.slug) = some "limited-time-deals" :=
  ⟨by decide, titleToSlug_hyphen_alias_unreachable.2
    "Limited-Time Deals" (by decide)⟩

/-- C7: `titleToSlug` is total with an explicit `none` for "no match";
on the unknown title `"Flash Sale Extravaganza"` it yields `none`. -/
theorem titleToSlug_unknown_none :
    titleToSlug "Flash Sale Extravaganza" = none := by
  decide

end Commerce
